import Mathlib

/-!
Shallow embedding of the `croppy` module (`src/croppy/croppy.py`).

An N-dimensional NumPy array is modelled as a shape (list of per-axis
extents) together with its elements in a flat, row-major (C-order) data
list.  NumPy basic slicing `array[slices]` with one `start:end` slice per
axis is modelled by `applySlices`, which gathers the elements of the
selected box in row-major order.  Python exceptions are modelled with
`Except CropError`; the constructors name the distinct `raise` sites of
the module (plus the `ValueError` NumPy itself raises when `.min()` /
`.max()` is taken over an empty coordinate array, named `emptyRegion`).

The public functions `crop_to_shape` and `crop_roi` both return the pair
of the cropped array and the slice tuple; this corresponds to the Python
call with `return_slices=True`, and the `return_slices=False` variant is
its first component.
-/

namespace Croppy

/-- An N-dimensional, densely stored, rectangular array: a shape and the
elements in row-major order. -/
structure NDArray (α : Type) where
  shape : List Nat
  data : List α
deriving Repr, DecidableEq

/-- Number of dimensions (`array.ndim` in NumPy): the length of the shape. -/
def NDArray.ndim {α : Type} (A : NDArray α) : Nat := A.shape.length

/-- Well-formedness invariant of a dense NumPy array: the flat data holds
exactly one element per position of the shape. -/
def NDArray.wf {α : Type} (A : NDArray α) : Prop := A.data.length = A.shape.prod

/-- Row-major flattening of a multi-index with respect to a shape. -/
def flatIndex : List Nat → List Nat → Nat
  | [], _ => 0
  | _ :: _, [] => 0
  | _ :: ns, i :: is => i * ns.prod + flatIndex ns is

/-- Element lookup at a multi-index (the default is never reached on
in-bounds indices of a well-formed array). -/
def NDArray.get {α : Type} [Inhabited α] (A : NDArray α) (idx : List Nat) : α :=
  A.data.getD (flatIndex A.shape idx) default

/-- Multi-index `idx` is in bounds for `shape`: same length and
componentwise strictly below the extents. -/
def ValidIdx (shape idx : List Nat) : Prop := List.Forall₂ (· < ·) idx shape

/-- All multi-indices of a shape, in row-major (C) order. -/
def allIndices : List Nat → List (List Nat)
  | [] => [[]]
  | n :: ns => (List.range n).flatMap (fun i => (allIndices ns).map (i :: ·))

/-- The integers of the half-open range `[s, e)`, in order (the index set
of the Python slice `s:e` on a sufficiently long axis). -/
def rangeList (s e : Nat) : List Nat := (List.range (e - s)).map (· + s)

/-- All multi-indices selected by a box of per-axis `(start, end)` ranges,
in row-major order. -/
def boxIndices : List (Nat × Nat) → List (List Nat)
  | [] => [[]]
  | r :: rs => (rangeList r.1 r.2).flatMap (fun i => (boxIndices rs).map (i :: ·))

/-- NumPy basic slicing `array[slices]` with one `(start, end)` range per
axis: the sub-array of the selected box, elements gathered in row-major
order. -/
def applySlices {α : Type} [Inhabited α] (A : NDArray α) (ranges : List (Nat × Nat)) :
    NDArray α :=
  { shape := ranges.map (fun r => r.2 - r.1),
    data := (boxIndices ranges).map (fun idx => A.get idx) }

/-- Failure modes of the module, one constructor per distinct raise site:
the two `ValueError`s of `crop_to_shape`, the shape guard of `crop_roi`,
and the `ValueError` NumPy raises for a min/max reduction over an empty
coordinate array inside `crop_roi`. -/
inductive CropError where
  | dimensionMismatch : CropError
  | shapeTooLarge : CropError
  | shapeMismatch : CropError
  | emptyRegion : CropError
deriving Repr, DecidableEq

/-- Per-axis slice ranges of the centered crop: `delta = n - t`,
`start = delta // 2`, `end = n - (delta - start)` (lines 47-49 of the
source). -/
def cropSlices (arrayShape targetShape : List Nat) : List (Nat × Nat) :=
  List.zipWith
    (fun n t =>
      let delta := n - t
      let start := delta / 2
      (start, n - (delta - start)))
    arrayShape targetShape

/-- Centered crop of `array` to `shape` (`crop_to_shape` in the source):
validate the rank, validate that no target extent exceeds the array
extent, then slice with the centered per-axis ranges.  Returns the
cropped array together with the slice ranges used. -/
def crop_to_shape {α : Type} [Inhabited α] (A : NDArray α) (shape : List Nat) :
    Except CropError (NDArray α × List (Nat × Nat)) :=
  if shape.length ≠ A.ndim then
    .error .dimensionMismatch
  else if (List.zip shape A.shape).any (fun p => decide (p.2 < p.1)) then
    .error .shapeTooLarge
  else
    let slices := cropSlices A.shape shape
    .ok (applySlices A slices, slices)

/-- Axis argument of `crop_roi`: `None`, a single (possibly negative)
index, or a collection of indices. -/
inductive AxisSpec where
  | all : AxisSpec
  | one : Int → AxisSpec
  | many : List Int → AxisSpec

/-- Axis resolution of `crop_roi` (lines 99-103 of the source): `None`
becomes `arange(ndim)`; otherwise `np.atleast_1d(axes) % ndim`, with
NumPy's `%` on a positive modulus agreeing with `Int.emod`. -/
def resolveAxes (ndim : Nat) : AxisSpec → List Nat
  | .all => List.range ndim
  | .one k => [(k % (ndim : Int)).toNat]
  | .many ks => ks.map (fun k => (k % (ndim : Int)).toNat)

/-- NumPy `argwhere`: the multi-indices of the true entries of a boolean
array, in row-major order. -/
def argwhere (M : NDArray Bool) : List (List Nat) :=
  (allIndices M.shape).filter (fun idx => M.get idx)

/-- Row `d` of `np.argwhere(mask).T`: the axis-`d` coordinate of every
true position. -/
def axisCoords (pts : List (List Nat)) (d : Nat) : List Nat :=
  pts.map (fun p => p.getD d 0)

/-- The helper `_full_array_slices`: one full-range slice per axis. -/
def _full_array_slices {α : Type} (A : NDArray α) : List (Nat × Nat) :=
  A.shape.map (fun n => (0, n))

/-- The loop of `crop_roi` (lines 108-111 of the source): for each
selected dimension, overwrite that axis's slice with
`(coords.min(), coords.max() + 1)`; NumPy raises when the reduction is
over an empty coordinate list, modelled by `emptyRegion`. -/
def roiLoop (pts : List (List Nat)) (slices : List (Nat × Nat)) :
    List Nat → Except CropError (List (Nat × Nat))
  | [] => .ok slices
  | d :: rest =>
    match (axisCoords pts d).min? with
    | none => .error .emptyRegion
    | some mn =>
      match (axisCoords pts d).max? with
      | none => .error .emptyRegion
      | some mx => roiLoop pts (slices.set d (mn, mx + 1)) rest

/-- ROI bounding-box crop (`crop_roi` in the source): check the mask
shape, resolve the axis selection, collect the true positions, start from
full-range slices and tighten each selected axis to the ROI's extent.
Returns the cropped array together with the slice ranges used. -/
def crop_roi {α : Type} [Inhabited α] (A : NDArray α) (M : NDArray Bool)
    (axes : AxisSpec) : Except CropError (NDArray α × List (Nat × Nat)) :=
  if A.shape ≠ M.shape then
    .error .shapeMismatch
  else
    match roiLoop (argwhere M) (_full_array_slices A) (resolveAxes A.ndim axes) with
    | .error e => .error e
    | .ok slices => .ok (applySlices A slices, slices)

/-- Closed form of one slice written by the loop of `crop_roi`: the pair
`(coords.min(), coords.max() + 1)` for axis `d` (with an irrelevant
default for the empty case the loop rejects). -/
def axisBounds (pts : List (List Nat)) (d : Nat) : Nat × Nat :=
  ((axisCoords pts d).min?.getD 0, (axisCoords pts d).max?.getD 0 + 1)

/-- Closed form of the whole loop of `crop_roi` on a nonempty coordinate
list: overwrite the slice of each selected dimension in order. -/
def roiUpdate (pts : List (List Nat)) (slices : List (Nat × Nat))
    (dims : List Nat) : List (Nat × Nat) :=
  dims.foldl (fun s d => s.set d (axisBounds pts d)) slices

/-- Concrete 4-element vector used to instantiate theorems. -/
def exA1 : NDArray Nat := ⟨[4], [5, 6, 7, 8]⟩

/-- Concrete mask for `exA1`, true on positions 1 and 2. -/
def exM1 : NDArray Bool := ⟨[4], [false, true, true, false]⟩

/-- Concrete mask for `exA1` that is false everywhere. -/
def exM1f : NDArray Bool := ⟨[4], [false, false, false, false]⟩

/-- Concrete 2 × 2 matrix used to instantiate theorems. -/
def exA2 : NDArray Nat := ⟨[2, 2], [1, 2, 3, 4]⟩

/-- Concrete mask for `exA2`, true only at position (0, 1). -/
def exM2 : NDArray Bool := ⟨[2, 2], [false, true, false, false]⟩

/-- Concrete mask whose shape disagrees with `exA2`. -/
def exM3 : NDArray Bool := ⟨[2, 1], [true, true]⟩

/-- Concrete 4 × 5 matrix used to instantiate theorems. -/
def exA45 : NDArray Nat := ⟨[4, 5], List.range 20⟩

/-- Row-major enumeration of a shape produces one entry per position. -/
theorem length_allIndices (shape : List Nat) : (allIndices shape).length = shape.prod := by
  induction shape with
  | nil => rfl
  | cons n ns ih =>
    simp only [allIndices, List.length_flatMap, List.prod_cons]
    have h1 : List.map (List.length ∘ fun i => (allIndices ns).map (i :: ·)) (List.range n)
        = List.map (fun _ => ns.prod) (List.range n) :=
      List.map_congr_left (fun a _ => by simp [ih])
    rw [h1, List.map_const', List.sum_replicate, List.length_range, smul_eq_mul]

/-- Membership in the row-major enumeration is exactly in-bounds validity. -/
theorem mem_allIndices {shape idx : List Nat} :
    idx ∈ allIndices shape ↔ ValidIdx shape idx := by
  induction shape generalizing idx with
  | nil =>
    constructor
    · intro h
      simp only [allIndices, List.mem_singleton] at h
      subst h
      exact List.Forall₂.nil
    · intro h
      rw [ValidIdx, List.forall₂_nil_right_iff] at h
      subst h
      simp [allIndices]
  | cons n ns ih =>
    constructor
    · intro h
      simp only [allIndices, List.mem_flatMap, List.mem_map, List.mem_range] at h
      obtain ⟨i, hi, is, his, rfl⟩ := h
      exact List.Forall₂.cons hi (ih.mp his)
    · intro h
      cases h with
      | cons hi his =>
        simp only [allIndices, List.mem_flatMap, List.mem_map, List.mem_range]
        exact ⟨_, hi, _, ih.mpr his, rfl⟩

/-- Decomposition of `range (n * m)` into `n` blocks of length `m`. -/
theorem range_mul_flatMap (n m : Nat) :
    List.range (n * m) =
      (List.range n).flatMap (fun i => (List.range m).map (fun j => i * m + j)) := by
  induction n with
  | zero => simp
  | succ n ih =>
    rw [List.range_succ, List.flatMap_append, ← ih, Nat.succ_mul, List.range_add]
    simp

/-- Row-major flattening maps the enumeration of a shape onto
`range shape.prod` in order. -/
theorem map_flatIndex_allIndices (shape : List Nat) :
    (allIndices shape).map (flatIndex shape) = List.range shape.prod := by
  induction shape with
  | nil => rfl
  | cons n ns ih =>
    simp only [allIndices, List.prod_cons, List.map_flatMap]
    rw [range_mul_flatMap]
    have h1 : ∀ i, ((allIndices ns).map (i :: ·)).map (flatIndex (n :: ns))
        = (List.range ns.prod).map (fun j => i * ns.prod + j) := by
      intro i
      rw [List.map_map, ← ih, List.map_map]
      exact List.map_congr_left (fun is _ => rfl)
    exact congrArg (List.flatMap (List.range n)) (funext h1)

/-- Flat index of a valid multi-index is in bounds for the flat data. -/
theorem flatIndex_lt {shape idx : List Nat} (h : ValidIdx shape idx) :
    flatIndex shape idx < shape.prod := by
  have hmem : flatIndex shape idx ∈ (allIndices shape).map (flatIndex shape) :=
    List.mem_map_of_mem _ (mem_allIndices.mpr h)
  rw [map_flatIndex_allIndices] at hmem
  exact List.mem_range.mp hmem

/-- The enumeration of a shape, looked up at the flat index of a valid
multi-index, returns that multi-index. -/
theorem getElem?_allIndices {shape idx : List Nat} (h : ValidIdx shape idx) :
    (allIndices shape)[flatIndex shape idx]? = some idx := by
  obtain ⟨q, hq⟩ := List.mem_iff_getElem?.mp (mem_allIndices.mpr h)
  have hqlt : q < shape.prod := by
    have h2 := (List.getElem?_eq_some_iff.mp hq).1
    rwa [length_allIndices] at h2
  have h1 : (List.map (flatIndex shape) (allIndices shape))[q]? =
      some (flatIndex shape idx) := by
    rw [List.getElem?_map, hq]
    rfl
  rw [map_flatIndex_allIndices, List.getElem?_range hqlt] at h1
  rw [← Option.some_inj.mp h1]
  exact hq

/-- Reading a list back by positions reproduces the list. -/
theorem map_getD_range {α : Type} (l : List α) (d : α) :
    (List.range l.length).map (fun k => l.getD k d) = l := by
  induction l with
  | nil => rfl
  | cons a as ih =>
    rw [List.length_cons, List.range_succ_eq_map, List.map_cons, List.map_map]
    have h1 : List.map ((fun k => (a :: as).getD k d) ∘ Nat.succ) (List.range as.length)
        = List.map (fun k => as.getD k d) (List.range as.length) :=
      List.map_congr_left (fun k _ => List.getD_cons_succ)
    rw [List.getD_cons_zero, h1, ih]

/-- Gathering every position of a well-formed array in row-major order
reproduces its flat data. -/
theorem map_get_allIndices {α : Type} [Inhabited α] {A : NDArray α} (h : A.wf) :
    (allIndices A.shape).map (fun idx => A.get idx) = A.data := by
  have h1 : (allIndices A.shape).map (fun idx => A.get idx)
      = ((allIndices A.shape).map (flatIndex A.shape)).map
          (fun k => A.data.getD k default) := by
    rw [List.map_map]
    rfl
  rw [h1, map_flatIndex_allIndices, ← h, map_getD_range]

/-- Box enumeration is the shape enumeration shifted by the per-axis
starts. -/
theorem boxIndices_eq (ranges : List (Nat × Nat)) :
    boxIndices ranges = (allIndices (ranges.map (fun r => r.2 - r.1))).map
      (fun idx => List.zipWith (fun i r => i + r.1) idx ranges) := by
  induction ranges with
  | nil => rfl
  | cons r rs ih =>
    show (rangeList r.1 r.2).flatMap (fun i => (boxIndices rs).map (i :: ·)) = _
    simp only [List.map_cons, allIndices, List.map_flatMap]
    rw [rangeList, List.flatMap_map]
    have h1 : ∀ i, (boxIndices rs).map ((i + r.1) :: ·)
        = ((allIndices (rs.map (fun s => s.2 - s.1))).map
            (fun idx => (i + r.1) :: List.zipWith (fun j s => j + s.1) idx rs)) := by
      intro i
      rw [ih, List.map_map]
      exact List.map_congr_left (fun is _ => rfl)
    have h2 : ∀ i, ((allIndices (rs.map (fun s => s.2 - s.1))).map (i :: ·)).map
          (fun idx => List.zipWith (fun j s => j + s.1) idx (r :: rs))
        = (allIndices (rs.map (fun s => s.2 - s.1))).map
            (fun idx => (i + r.1) :: List.zipWith (fun j s => j + s.1) idx rs) := by
      intro i
      rw [List.map_map]
      exact List.map_congr_left (fun is _ => rfl)
    exact congrArg (List.flatMap (List.range (r.2 - r.1)))
      (funext (fun i => (h1 i).trans (h2 i).symm))

/-- Shape of a sliced array: the per-axis range lengths. -/
theorem applySlices_shape {α : Type} [Inhabited α] (A : NDArray α)
    (ranges : List (Nat × Nat)) :
    (applySlices A ranges).shape = ranges.map (fun r => r.2 - r.1) := rfl

/-- Slicing always produces a well-formed array. -/
theorem applySlices_wf {α : Type} [Inhabited α] (A : NDArray α)
    (ranges : List (Nat × Nat)) : (applySlices A ranges).wf := by
  show ((boxIndices ranges).map (fun idx => A.get idx)).length = _
  rw [List.length_map, boxIndices_eq, List.length_map, length_allIndices]
  rfl

/-- Element semantics of slicing: reading the sliced array at a valid
multi-index reads the source at the start-shifted multi-index. -/
theorem applySlices_get {α : Type} [Inhabited α] (A : NDArray α)
    (ranges : List (Nat × Nat)) {idx : List Nat}
    (h : ValidIdx (ranges.map (fun r => r.2 - r.1)) idx) :
    (applySlices A ranges).get idx =
      A.get (List.zipWith (fun i r => i + r.1) idx ranges) := by
  show ((boxIndices ranges).map (fun i => A.get i)).getD
      (flatIndex (ranges.map (fun r => r.2 - r.1)) idx) default = _
  rw [boxIndices_eq, List.map_map, List.getD_eq_getElem?_getD, List.getElem?_map,
    getElem?_allIndices h]
  rfl

/-- Padding each entry of the zip with a zero start is the identity. -/
theorem zipWith_shift_full (idx shape : List Nat) (h : idx.length = shape.length) :
    List.zipWith (fun i r => i + r.1) idx (shape.map (fun n => ((0 : Nat), n))) = idx := by
  induction idx generalizing shape with
  | nil => rfl
  | cons i is ih =>
    cases shape with
    | nil => simp at h
    | cons n ns =>
      simp only [List.map_cons, List.zipWith_cons_cons]
      rw [ih ns (by simpa using h)]
      simp

/-- Slicing a well-formed array with full ranges on every axis returns the
array unchanged. -/
theorem applySlices_full {α : Type} [Inhabited α] (A : NDArray α) (h : A.wf) :
    applySlices A (_full_array_slices A) = A := by
  have hshape : (_full_array_slices A).map (fun r => r.2 - r.1) = A.shape := by
    rw [_full_array_slices, List.map_map]
    have h1 : List.map ((fun r : Nat × Nat => r.2 - r.1) ∘ fun n : Nat => ((0 : Nat), n))
        A.shape = List.map id A.shape := List.map_congr_left (fun n _ => rfl)
    rw [h1, List.map_id]
  have hdata : (boxIndices (_full_array_slices A)).map (fun idx => A.get idx) = A.data := by
    rw [boxIndices_eq, List.map_map, hshape]
    have h2 : (allIndices A.shape).map
        ((fun idx => A.get idx) ∘ (fun idx =>
          List.zipWith (fun i r => i + r.1) idx (_full_array_slices A)))
        = (allIndices A.shape).map (fun idx => A.get idx) := by
      apply List.map_congr_left
      intro idx hidx
      have hlen : idx.length = A.shape.length := (mem_allIndices.mp hidx).length_eq
      show A.get (List.zipWith (fun i r => i + r.1) idx
        (A.shape.map (fun n => ((0 : Nat), n)))) = A.get idx
      rw [zipWith_shift_full idx A.shape hlen]
    rw [h2, map_get_allIndices h]
  show NDArray.mk ((_full_array_slices A).map (fun r => r.2 - r.1))
      ((boxIndices (_full_array_slices A)).map (fun idx => A.get idx)) = A
  rw [hshape, hdata]

/-- Elementwise comparison check of `crop_to_shape`, rephrased by
position: some target extent exceeds the array extent. -/
theorem zipAny_iff {S ns : List Nat} (hlen : S.length = ns.length) :
    ((List.zip S ns).any (fun p => decide (p.2 < p.1)) = true) ↔
      ∃ i, i < S.length ∧ ns.getD i 0 < S.getD i 0 := by
  rw [List.any_eq_true]
  constructor
  · rintro ⟨p, hp, hdec⟩
    rw [decide_eq_true_iff] at hdec
    obtain ⟨i, hi⟩ := List.mem_iff_getElem?.mp hp
    rw [List.zip_eq_zipWith, List.getElem?_zipWith] at hi
    cases hS : S[i]? with
    | none => rw [hS] at hi; simp at hi
    | some a =>
      cases hN : ns[i]? with
      | none => rw [hS, hN] at hi; simp at hi
      | some b =>
        rw [hS, hN] at hi
        have hp2 : (a, b) = p := by simpa using hi
        have hiS : i < S.length := (List.getElem?_eq_some_iff.mp hS).1
        have hiN : i < ns.length := (List.getElem?_eq_some_iff.mp hN).1
        refine ⟨i, hiS, ?_⟩
        rw [List.getD_eq_getElem ns 0 hiN, List.getD_eq_getElem S 0 hiS]
        rw [(List.getElem?_eq_some_iff.mp hS).2, (List.getElem?_eq_some_iff.mp hN).2]
        rw [← hp2] at hdec
        exact hdec
  · rintro ⟨i, hiS, hlt⟩
    have hiN : i < ns.length := hlen ▸ hiS
    refine ⟨(S[i], ns[i]), ?_, ?_⟩
    · refine List.mem_iff_getElem?.mpr ⟨i, ?_⟩
      rw [List.zip_eq_zipWith, List.getElem?_zipWith,
        List.getElem?_eq_getElem hiS, List.getElem?_eq_getElem hiN]
    · rw [decide_eq_true_iff]
      show ns[i] < S[i]
      rw [List.getD_eq_getElem ns 0 hiN, List.getD_eq_getElem S 0 hiS] at hlt
      exact hlt

/-- Length of the centered-crop slice list. -/
theorem length_cropSlices (ns ts : List Nat) :
    (cropSlices ns ts).length = min ns.length ts.length := by
  rw [cropSlices, List.length_zipWith]

/-- Closed form of one entry of the centered-crop slice list. -/
theorem cropSlices_getD {ns ts : List Nat} {i : Nat} (hn : i < ns.length)
    (ht : i < ts.length) :
    (cropSlices ns ts).getD i (0, 0) =
      ((ns.getD i 0 - ts.getD i 0) / 2,
        ns.getD i 0 - ((ns.getD i 0 - ts.getD i 0) - (ns.getD i 0 - ts.getD i 0) / 2)) := by
  rw [cropSlices, List.getD_eq_getElem?_getD, List.getElem?_zipWith,
    List.getElem?_eq_getElem hn, List.getElem?_eq_getElem ht,
    List.getD_eq_getElem ns 0 hn, List.getD_eq_getElem ts 0 ht]
  rfl

/-- Success path of `crop_to_shape`: under the two preconditions it
returns the centered slices applied to the array. -/
theorem crop_to_shape_ok_eq {α : Type} [Inhabited α] (A : NDArray α) (S : List Nat)
    (hlen : S.length = A.ndim)
    (hle : ∀ i, i < S.length → S.getD i 0 ≤ A.shape.getD i 0) :
    crop_to_shape A S =
      .ok (applySlices A (cropSlices A.shape S), cropSlices A.shape S) := by
  rw [crop_to_shape, if_neg (not_not_intro hlen)]
  rw [if_neg]
  intro hany
  obtain ⟨i, hi, hlt⟩ := (zipAny_iff hlen).mp hany
  exact absurd hlt (Nat.not_lt.mpr (hle i hi))

/-- The centered slices select exactly the target extent on every axis. -/
theorem cropSlices_target_shape {α : Type} [Inhabited α] (A : NDArray α) (S : List Nat)
    (hlen : S.length = A.ndim)
    (hle : ∀ i, i < S.length → S.getD i 0 ≤ A.shape.getD i 0) :
    (cropSlices A.shape S).map (fun r => r.2 - r.1) = S := by
  have hsl : S.length = A.shape.length := hlen
  have hlen2 : ((cropSlices A.shape S).map (fun r => r.2 - r.1)).length = S.length := by
    rw [List.length_map, length_cropSlices, ← hsl, Nat.min_self]
  apply List.ext_getElem hlen2
  intro i h1 h2
  have hiS : i < S.length := h2
  have hiN : i < A.shape.length := by
    have := hlen ▸ hiS
    exact this
  have hcs : i < (cropSlices A.shape S).length := by
    rw [length_cropSlices]
    exact lt_min hiN hiS
  rw [List.getElem_map]
  have hval := cropSlices_getD hiN hiS
  rw [List.getD_eq_getElem _ _ hcs] at hval
  rw [hval]
  show A.shape.getD i 0 - (A.shape.getD i 0 - S.getD i 0 -
    (A.shape.getD i 0 - S.getD i 0) / 2) - (A.shape.getD i 0 - S.getD i 0) / 2 = S[i]
  rw [← List.getD_eq_getElem S 0 hiS]
  have hle2 := hle i hiS
  omega

/-- Minimum characterization for lists of naturals. -/
theorem nat_min?_spec {l : List Nat} {a : Nat} :
    l.min? = some a ↔ a ∈ l ∧ ∀ b ∈ l, a ≤ b :=
  List.min?_eq_some_iff (fun _ => le_refl _) min_choice (fun _ _ _ => le_min_iff)

/-- Maximum characterization for lists of naturals. -/
theorem nat_max?_spec {l : List Nat} {a : Nat} :
    l.max? = some a ↔ a ∈ l ∧ ∀ b ∈ l, b ≤ a :=
  List.max?_eq_some_iff (fun _ => le_refl _) max_choice (fun _ _ _ => max_le_iff)

/-- A nonempty list of naturals has a minimum. -/
theorem min?_isSome_of_ne_nil {l : List Nat} (h : l ≠ []) : ∃ m, l.min? = some m := by
  cases hm : l.min? with
  | some m => exact ⟨m, rfl⟩
  | none => exact absurd (List.min?_eq_none_iff.mp hm) h

/-- A nonempty list of naturals has a maximum. -/
theorem max?_isSome_of_ne_nil {l : List Nat} (h : l ≠ []) : ∃ m, l.max? = some m := by
  cases hm : l.max? with
  | some m => exact ⟨m, rfl⟩
  | none => exact absurd (List.max?_eq_none_iff.mp hm) h

/-- Membership in `argwhere`: exactly the in-bounds true positions. -/
theorem mem_argwhere {M : NDArray Bool} {p : List Nat} :
    p ∈ argwhere M ↔ ValidIdx M.shape p ∧ M.get p = true := by
  rw [argwhere, List.mem_filter, mem_allIndices]

/-- A well-formed mask with a true element has a nonempty `argwhere`. -/
theorem argwhere_ne_nil {M : NDArray Bool} (hwf : M.wf)
    (hsome : ∃ b ∈ M.data, b = true) : argwhere M ≠ [] := by
  obtain ⟨b, hbmem, hb⟩ := hsome
  subst hb
  obtain ⟨k, hk⟩ := List.mem_iff_getElem?.mp hbmem
  have hklt : k < M.data.length := (List.getElem?_eq_some_iff.mp hk).1
  have hkmem : k ∈ List.range M.shape.prod :=
    List.mem_range.mpr (by rw [← hwf]; exact hklt)
  rw [← map_flatIndex_allIndices] at hkmem
  obtain ⟨idx, hidx, hfl⟩ := List.mem_map.mp hkmem
  have hget : M.get idx = true := by
    show M.data.getD (flatIndex M.shape idx) default = true
    rw [hfl, List.getD_eq_getElem?_getD, hk]
    rfl
  intro hnil
  have hmem : idx ∈ argwhere M := mem_argwhere.mpr ⟨mem_allIndices.mp hidx, hget⟩
  rw [hnil] at hmem
  exact absurd hmem (List.not_mem_nil idx)

/-- An all-false mask has an empty `argwhere`. -/
theorem argwhere_nil {M : NDArray Bool} (hfalse : ∀ b ∈ M.data, b = false) :
    argwhere M = [] := by
  rw [argwhere, List.filter_eq_nil_iff]
  intro idx _
  show ¬ M.get idx = true
  show ¬ M.data.getD (flatIndex M.shape idx) default = true
  rw [List.getD_eq_getElem?_getD]
  cases hk : M.data[flatIndex M.shape idx]? with
  | none => simp
  | some b =>
    have hb : b = false := hfalse b (List.mem_iff_getElem?.mpr ⟨_, hk⟩)
    simp [hb]

/-- Loop step when the coordinate list is empty: the NumPy reduction
raises. -/
theorem roiLoop_cons_none {pts : List (List Nat)} {slices : List (Nat × Nat)}
    {d : Nat} {rest : List Nat} (hmn : (axisCoords pts d).min? = none) :
    roiLoop pts slices (d :: rest) = .error .emptyRegion := by
  simp [roiLoop, hmn]

/-- Loop step on a nonempty coordinate list: tighten this axis and
continue. -/
theorem roiLoop_cons_some {pts : List (List Nat)} {slices : List (Nat × Nat)}
    {d : Nat} {rest : List Nat} {mn mx : Nat}
    (hmn : (axisCoords pts d).min? = some mn)
    (hmx : (axisCoords pts d).max? = some mx) :
    roiLoop pts slices (d :: rest) = roiLoop pts (slices.set d (mn, mx + 1)) rest := by
  simp [roiLoop, hmn, hmx]

/-- The loop with no true positions fails as soon as any axis is
selected. -/
theorem roiLoop_nil_ok {slices out : List (Nat × Nat)} {dims : List Nat}
    (h : roiLoop [] slices dims = .ok out) : out = slices := by
  cases dims with
  | nil => exact (Except.ok.inj h).symm
  | cons d rest =>
    rw [roiLoop_cons_none (by simp [axisCoords])] at h
    exact absurd h (by simp)

/-- On a nonempty coordinate list the loop always succeeds, with the
closed-form update. -/
theorem roiLoop_ok {pts : List (List Nat)} (hne : pts ≠ [])
    (slices : List (Nat × Nat)) (dims : List Nat) :
    roiLoop pts slices dims = .ok (roiUpdate pts slices dims) := by
  induction dims generalizing slices with
  | nil => rfl
  | cons d rest ih =>
    have hcoords : axisCoords pts d ≠ [] := by
      intro hc
      exact hne (List.map_eq_nil_iff.mp hc)
    obtain ⟨mn, hmn⟩ := min?_isSome_of_ne_nil hcoords
    obtain ⟨mx, hmx⟩ := max?_isSome_of_ne_nil hcoords
    have hab : axisBounds pts d = (mn, mx + 1) := by
      rw [axisBounds, hmn, hmx]
      rfl
    rw [roiLoop_cons_some hmn hmx, ← hab, ih]
    rfl

/-- Any failure of the loop is the empty-region failure. -/
theorem roiLoop_error_emptyRegion {pts : List (List Nat)}
    {slices : List (Nat × Nat)} {dims : List Nat} {e : CropError}
    (h : roiLoop pts slices dims = .error e) : e = .emptyRegion := by
  induction dims generalizing slices with
  | nil => exact absurd h (by simp [roiLoop])
  | cons d rest ih =>
    cases hmn : (axisCoords pts d).min? with
    | none =>
      rw [roiLoop_cons_none hmn] at h
      exact (Except.error.inj h).symm
    | some mn =>
      have hcoords : axisCoords pts d ≠ [] := by
        intro hc
        rw [hc] at hmn
        simp at hmn
      obtain ⟨mx, hmx⟩ := max?_isSome_of_ne_nil hcoords
      rw [roiLoop_cons_some hmn hmx] at h
      exact ih h

/-- The loop preserves the number of axes. -/
theorem length_roiUpdate (pts : List (List Nat)) (slices : List (Nat × Nat))
    (dims : List Nat) : (roiUpdate pts slices dims).length = slices.length := by
  induction dims generalizing slices with
  | nil => rfl
  | cons d rest ih =>
    show (roiUpdate pts (slices.set d (axisBounds pts d)) rest).length = slices.length
    rw [ih, List.length_set]

/-- Per-axis result of the loop update: selected axes get the tight
bounds, others keep their slice. -/
theorem getD_roiUpdate (pts : List (List Nat)) (slices : List (Nat × Nat))
    (dims : List Nat) {j : Nat} (hj : j < slices.length) :
    (roiUpdate pts slices dims).getD j (0, 0) =
      if j ∈ dims then axisBounds pts j else slices.getD j (0, 0) := by
  induction dims generalizing slices with
  | nil => simp [roiUpdate]
  | cons d rest ih =>
    show (roiUpdate pts (slices.set d (axisBounds pts d)) rest).getD j (0, 0) = _
    rw [ih (slices.set d (axisBounds pts d)) (by rw [List.length_set]; exact hj)]
    by_cases hjr : j ∈ rest
    · rw [if_pos hjr, if_pos (List.mem_cons_of_mem d hjr)]
    · by_cases hjd : j = d
      · subst hjd
        rw [if_neg hjr, if_pos (List.mem_cons_self j rest)]
        rw [List.getD_eq_getElem?_getD, List.getElem?_set_self hj]
        rfl
      · rw [if_neg hjr, if_neg (by simp [List.mem_cons, hjd, hjr])]
        rw [List.getD_eq_getElem?_getD,
          List.getElem?_set_ne (fun hdj => hjd hdj.symm), ← List.getD_eq_getElem?_getD]

/-- The full-range slice list has one entry per axis. -/
theorem length_full_slices {α : Type} (A : NDArray α) :
    (_full_array_slices A).length = A.ndim := by
  rw [_full_array_slices, List.length_map]
  rfl

/-- Entries of the full-range slice list. -/
theorem full_slices_getD {α : Type} (A : NDArray α) {a : Nat} (ha : a < A.ndim) :
    (_full_array_slices A).getD a (0, 0) = (0, A.shape.getD a 0) := by
  have ha2 : a < A.shape.length := ha
  rw [_full_array_slices, List.getD_eq_getElem?_getD, List.getElem?_map,
    List.getElem?_eq_getElem ha2, List.getD_eq_getElem A.shape 0 ha2]
  rfl

/-- Inversion of a successful `crop_roi`: the shapes agreed, the loop
succeeded with the returned slices, and the result is the slices applied
to the array. -/
theorem crop_roi_ok_inv {α : Type} [Inhabited α] {A : NDArray α} {M : NDArray Bool}
    {axes : AxisSpec} {C : NDArray α} {slices : List (Nat × Nat)}
    (hok : crop_roi A M axes = .ok (C, slices)) :
    A.shape = M.shape ∧
    roiLoop (argwhere M) (_full_array_slices A) (resolveAxes A.ndim axes) = .ok slices ∧
    C = applySlices A slices := by
  by_cases hsh : A.shape = M.shape
  · rw [crop_roi, if_neg (not_not_intro hsh)] at hok
    cases hloop : roiLoop (argwhere M) (_full_array_slices A) (resolveAxes A.ndim axes) with
    | error e =>
      rw [hloop] at hok
      exact absurd hok (by simp)
    | ok out =>
      rw [hloop] at hok
      have h1 := Except.ok.inj hok
      have h2 : applySlices A out = C := congrArg Prod.fst h1
      have h3 : out = slices := congrArg Prod.snd h1
      subst h3
      exact ⟨hsh, rfl, h2.symm⟩
  · rw [crop_roi, if_pos hsh] at hok
    exact absurd hok (by simp)

/-- C1: for every array and target shape of the same rank with each target
extent at most the corresponding array extent, `crop_to_shape` succeeds
and the cropped array's shape is exactly the target shape. -/
theorem crop_to_shape_shape {α : Type} [Inhabited α] (A : NDArray α) (S : List Nat)
    (hlen : S.length = A.ndim)
    (hle : ∀ i, i < S.length → S.getD i 0 ≤ A.shape.getD i 0) :
    ∃ C slices, crop_to_shape A S = .ok (C, slices) ∧ C.shape = S :=
  ⟨_, _, crop_to_shape_ok_eq A S hlen hle,
    (applySlices_shape A _).trans (cropSlices_target_shape A S hlen hle)⟩

/-- Witness instantiating `crop_to_shape_shape` on the 4 × 5 example with
target shape (2, 3). -/
theorem crop_to_shape_shape_witness :
    ([2, 3].length = exA45.ndim ∧
      (∀ i, i < [2, 3].length → [2, 3].getD i 0 ≤ exA45.shape.getD i 0)) ∧
    (∃ C slices, crop_to_shape exA45 [2, 3] = .ok (C, slices) ∧ C.shape = [2, 3]) :=
  ⟨⟨by decide, by decide⟩, crop_to_shape_shape exA45 [2, 3] (by decide) (by decide)⟩

/-- C2: the centered crop discards `delta / 2` leading and
`delta - delta / 2` trailing elements on each axis (`delta` the extent
difference), so the per-axis slice is
`(delta / 2, n - (delta - delta / 2))`, and an odd `delta` discards one
more element on the trailing side than on the leading side. -/
theorem crop_to_shape_centering {α : Type} [Inhabited α] (A : NDArray α) (S : List Nat)
    (hlen : S.length = A.ndim)
    (hle : ∀ i, i < S.length → S.getD i 0 ≤ A.shape.getD i 0)
    (C : NDArray α) (slices : List (Nat × Nat))
    (hok : crop_to_shape A S = .ok (C, slices)) :
    ∀ i, i < S.length →
      slices.getD i (0, 0) =
        ((A.shape.getD i 0 - S.getD i 0) / 2,
          A.shape.getD i 0 -
            ((A.shape.getD i 0 - S.getD i 0) - (A.shape.getD i 0 - S.getD i 0) / 2)) ∧
      (slices.getD i (0, 0)).1 = (A.shape.getD i 0 - S.getD i 0) / 2 ∧
      A.shape.getD i 0 - (slices.getD i (0, 0)).2 =
        (A.shape.getD i 0 - S.getD i 0) - (A.shape.getD i 0 - S.getD i 0) / 2 ∧
      ((A.shape.getD i 0 - S.getD i 0) % 2 = 1 →
        A.shape.getD i 0 - (slices.getD i (0, 0)).2 = (slices.getD i (0, 0)).1 + 1) := by
  intro i hi
  have heq := crop_to_shape_ok_eq A S hlen hle
  rw [hok] at heq
  have hsl : slices = cropSlices A.shape S := congrArg Prod.snd (Except.ok.inj heq)
  subst hsl
  have hiN : i < A.shape.length := by
    have h2 : S.length = A.shape.length := hlen
    omega
  rw [cropSlices_getD hiN hi]
  dsimp only
  exact ⟨rfl, rfl, by omega, by omega⟩

/-- Witness instantiating `crop_to_shape_centering` on the 4 × 5 example
with target shape (2, 2): both per-axis deltas are discarded as computed,
axis 1 with odd delta 3 discarding 1 leading and 2 trailing elements. -/
theorem crop_to_shape_centering_witness :
    ([2, 2].length = exA45.ndim ∧
      (∀ i, i < [2, 2].length → [2, 2].getD i 0 ≤ exA45.shape.getD i 0) ∧
      crop_to_shape exA45 [2, 2] =
        .ok (⟨[2, 2], [6, 7, 11, 12]⟩, [(1, 3), (1, 3)])) ∧
    (∀ i, i < [2, 2].length →
      [(1, 3), (1, 3)].getD i (0, 0) =
        ((exA45.shape.getD i 0 - [2, 2].getD i 0) / 2,
          exA45.shape.getD i 0 -
            ((exA45.shape.getD i 0 - [2, 2].getD i 0) -
              (exA45.shape.getD i 0 - [2, 2].getD i 0) / 2)) ∧
      ([(1, 3), (1, 3)].getD i (0, 0)).1 =
        (exA45.shape.getD i 0 - [2, 2].getD i 0) / 2 ∧
      exA45.shape.getD i 0 - ([(1, 3), (1, 3)].getD i (0, 0)).2 =
        (exA45.shape.getD i 0 - [2, 2].getD i 0) -
          (exA45.shape.getD i 0 - [2, 2].getD i 0) / 2 ∧
      ((exA45.shape.getD i 0 - [2, 2].getD i 0) % 2 = 1 →
        exA45.shape.getD i 0 - ([(1, 3), (1, 3)].getD i (0, 0)).2 =
          ([(1, 3), (1, 3)].getD i (0, 0)).1 + 1)) :=
  ⟨⟨by decide, by decide, by rfl⟩,
    crop_to_shape_centering exA45 [2, 2] (by decide) (by decide)
      ⟨[2, 2], [6, 7, 11, 12]⟩ [(1, 3), (1, 3)] (by rfl)⟩

/-- C5: `crop_to_shape` reports a rank mismatch whenever the target
shape's length differs from the array's rank; with equal ranks it reports
a too-large shape whenever some target extent exceeds the array extent;
and it succeeds when both preconditions hold. -/
theorem crop_to_shape_errors {α : Type} [Inhabited α] (A : NDArray α) (S : List Nat) :
    (S.length ≠ A.ndim → crop_to_shape A S = .error .dimensionMismatch) ∧
    (S.length = A.ndim →
      (∃ i, i < S.length ∧ A.shape.getD i 0 < S.getD i 0) →
      crop_to_shape A S = .error .shapeTooLarge) ∧
    (S.length = A.ndim →
      (∀ i, i < S.length → S.getD i 0 ≤ A.shape.getD i 0) →
      ∃ C slices, crop_to_shape A S = .ok (C, slices)) := by
  refine ⟨?_, ?_, ?_⟩
  · intro hne
    rw [crop_to_shape, if_pos hne]
  · intro hlen hex
    rw [crop_to_shape, if_neg (not_not_intro hlen),
      if_pos ((zipAny_iff hlen).mpr hex)]
  · intro hlen hle
    exact ⟨_, _, crop_to_shape_ok_eq A S hlen hle⟩

/-- Witness instantiating `crop_to_shape_errors` on the 2 × 2 example:
a rank mismatch, a too-large axis, and a valid crop. -/
theorem crop_to_shape_errors_witness :
    crop_to_shape exA2 [2] = .error .dimensionMismatch ∧
    crop_to_shape exA2 [3, 1] = .error .shapeTooLarge ∧
    (∃ C slices, crop_to_shape exA2 [1, 2] = .ok (C, slices)) :=
  ⟨(crop_to_shape_errors exA2 [2]).1 (by decide),
    (crop_to_shape_errors exA2 [3, 1]).2.1 (by decide) ⟨0, by decide, by decide⟩,
    (crop_to_shape_errors exA2 [1, 2]).2.2 (by decide) (by decide)⟩

/-- C9: cropping the result of a valid centered crop to the same target
shape is the identity on it, and uses the full range on every axis. -/
theorem crop_to_shape_idempotent {α : Type} [Inhabited α] (A : NDArray α) (S : List Nat)
    (hlen : S.length = A.ndim)
    (hle : ∀ i, i < S.length → S.getD i 0 ≤ A.shape.getD i 0)
    (C : NDArray α) (slices : List (Nat × Nat))
    (hok : crop_to_shape A S = .ok (C, slices)) :
    crop_to_shape C S = .ok (C, S.map (fun t => (0, t))) := by
  have heq := crop_to_shape_ok_eq A S hlen hle
  rw [hok] at heq
  have hC : C = applySlices A (cropSlices A.shape S) :=
    congrArg Prod.fst (Except.ok.inj heq)
  have hCshape : C.shape = S := by
    rw [hC, applySlices_shape]
    exact cropSlices_target_shape A S hlen hle
  have hlen2 : S.length = C.ndim := by
    show S.length = C.shape.length
    rw [hCshape]
  have hle2 : ∀ i, i < S.length → S.getD i 0 ≤ C.shape.getD i 0 := by
    intro i hi
    rw [hCshape]
  have hfull : cropSlices C.shape S = S.map (fun t => ((0 : Nat), t)) := by
    rw [hCshape, cropSlices, List.zipWith_same]
    apply List.map_congr_left
    intro t _
    show ((t - t) / 2, t - ((t - t) - (t - t) / 2)) = (0, t)
    simp [Nat.sub_self]
  have hCwf : C.wf := by
    rw [hC]
    exact applySlices_wf A _
  have hfull2 : S.map (fun t => ((0 : Nat), t)) = _full_array_slices C := by
    rw [_full_array_slices, hCshape]
  rw [crop_to_shape_ok_eq C S hlen2 hle2, hfull, hfull2, applySlices_full C hCwf]

/-- Witness instantiating `crop_to_shape_idempotent` on the 2 × 2 example
with target shape (1, 2). -/
theorem crop_to_shape_idempotent_witness :
    ([1, 2].length = exA2.ndim ∧
      (∀ i, i < [1, 2].length → [1, 2].getD i 0 ≤ exA2.shape.getD i 0) ∧
      crop_to_shape exA2 [1, 2] = .ok (⟨[1, 2], [1, 2]⟩, [(0, 1), (0, 2)])) ∧
    crop_to_shape (⟨[1, 2], [1, 2]⟩ : NDArray Nat) [1, 2] =
      .ok (⟨[1, 2], [1, 2]⟩, [1, 2].map (fun t => (0, t))) :=
  ⟨⟨by decide, by decide, by rfl⟩,
    crop_to_shape_idempotent exA2 [1, 2] (by decide) (by decide)
      ⟨[1, 2], [1, 2]⟩ [(0, 1), (0, 2)] (by rfl)⟩

/-- C3: with all axes selected, `crop_roi` succeeds on a well-formed mask
holding a true element and returns, on every axis, exactly the half-open
range from the least to one past the greatest coordinate of the mask's
true positions on that axis, the cropped array being the array restricted
to those ranges. -/
theorem crop_roi_tight {α : Type} [Inhabited α] (A : NDArray α) (M : NDArray Bool)
    (hwf : M.wf) (hsh : A.shape = M.shape)
    (hsome : ∃ b ∈ M.data, b = true) :
    ∃ C slices, crop_roi A M .all = .ok (C, slices) ∧
      slices.length = A.ndim ∧
      (∀ a, a < A.ndim →
        ∃ mn mx, slices.getD a (0, 0) = (mn, mx + 1) ∧
          (∀ p, ValidIdx M.shape p → M.get p = true →
            mn ≤ p.getD a 0 ∧ p.getD a 0 ≤ mx) ∧
          (∃ p, ValidIdx M.shape p ∧ M.get p = true ∧ p.getD a 0 = mn) ∧
          (∃ p, ValidIdx M.shape p ∧ M.get p = true ∧ p.getD a 0 = mx)) ∧
      C = applySlices A slices ∧
      (∀ idx, ValidIdx C.shape idx →
        C.get idx = A.get (List.zipWith (fun i r => i + r.1) idx slices)) := by
  have hpts : argwhere M ≠ [] := argwhere_ne_nil hwf hsome
  have hloop := roiLoop_ok hpts (_full_array_slices A) (resolveAxes A.ndim .all)
  refine ⟨applySlices A
      (roiUpdate (argwhere M) (_full_array_slices A) (resolveAxes A.ndim .all)),
    roiUpdate (argwhere M) (_full_array_slices A) (resolveAxes A.ndim .all),
    ?_, ?_, ?_, rfl, ?_⟩
  · rw [crop_roi, if_neg (not_not_intro hsh), hloop]
  · rw [length_roiUpdate, length_full_slices]
  · intro a ha
    have hcoords : axisCoords (argwhere M) a ≠ [] := fun hc =>
      hpts (List.map_eq_nil_iff.mp hc)
    obtain ⟨mn, hmn⟩ := min?_isSome_of_ne_nil hcoords
    obtain ⟨mx, hmx⟩ := max?_isSome_of_ne_nil hcoords
    refine ⟨mn, mx, ?_, ?_, ?_, ?_⟩
    · have hmem : a ∈ resolveAxes A.ndim AxisSpec.all := List.mem_range.mpr ha
      rw [getD_roiUpdate _ _ _ (by rw [length_full_slices]; exact ha),
        if_pos hmem, axisBounds, hmn, hmx]
      rfl
    · intro p hv hg
      have hcoord : p.getD a 0 ∈ axisCoords (argwhere M) a :=
        List.mem_map_of_mem _ (mem_argwhere.mpr ⟨hv, hg⟩)
      exact ⟨(nat_min?_spec.mp hmn).2 _ hcoord, (nat_max?_spec.mp hmx).2 _ hcoord⟩
    · obtain ⟨p, hp, hpa⟩ := List.mem_map.mp (nat_min?_spec.mp hmn).1
      have h2 := mem_argwhere.mp hp
      exact ⟨p, h2.1, h2.2, hpa⟩
    · obtain ⟨p, hp, hpa⟩ := List.mem_map.mp (nat_max?_spec.mp hmx).1
      have h2 := mem_argwhere.mp hp
      exact ⟨p, h2.1, h2.2, hpa⟩
  · intro idx hv
    exact applySlices_get A _ hv

/-- Witness instantiating `crop_roi_tight` on the 4-element example with
true positions 1 and 2. -/
theorem crop_roi_tight_witness :
    (exM1.wf ∧ exA1.shape = exM1.shape ∧ (∃ b ∈ exM1.data, b = true)) ∧
    (∃ C slices, crop_roi exA1 exM1 .all = .ok (C, slices) ∧
      slices.length = exA1.ndim ∧
      (∀ a, a < exA1.ndim →
        ∃ mn mx, slices.getD a (0, 0) = (mn, mx + 1) ∧
          (∀ p, ValidIdx exM1.shape p → exM1.get p = true →
            mn ≤ p.getD a 0 ∧ p.getD a 0 ≤ mx) ∧
          (∃ p, ValidIdx exM1.shape p ∧ exM1.get p = true ∧ p.getD a 0 = mn) ∧
          (∃ p, ValidIdx exM1.shape p ∧ exM1.get p = true ∧ p.getD a 0 = mx)) ∧
      C = applySlices exA1 slices ∧
      (∀ idx, ValidIdx C.shape idx →
        C.get idx = exA1.get (List.zipWith (fun i r => i + r.1) idx slices))) :=
  ⟨⟨by rfl, by decide, by decide⟩,
    crop_roi_tight exA1 exM1 (by rfl) (by decide) (by decide)⟩

/-- C4: every axis whose normalized index is not selected by the axis
argument keeps the full original range `(0, shape[axis])` in the slices
returned by `crop_roi`. -/
theorem crop_roi_frame {α : Type} [Inhabited α] (A : NDArray α) (M : NDArray Bool)
    (axes : AxisSpec) (C : NDArray α) (slices : List (Nat × Nat))
    (hok : crop_roi A M axes = .ok (C, slices)) :
    ∀ a, a < A.ndim → a ∉ resolveAxes A.ndim axes →
      slices.getD a (0, 0) = (0, A.shape.getD a 0) := by
  intro a ha hnot
  obtain ⟨hsh, hloop, hC⟩ := crop_roi_ok_inv hok
  by_cases hpts : argwhere M = []
  · rw [hpts] at hloop
    rw [roiLoop_nil_ok hloop]
    exact full_slices_getD A ha
  · rw [roiLoop_ok hpts] at hloop
    have hsl : slices =
        roiUpdate (argwhere M) (_full_array_slices A) (resolveAxes A.ndim axes) :=
      (Except.ok.inj hloop).symm
    rw [hsl, getD_roiUpdate _ _ _ (by rw [length_full_slices]; exact ha), if_neg hnot]
    exact full_slices_getD A ha

/-- Witness instantiating `crop_roi_frame`: with axes `(0,)` on the 2 × 2
example, axis 1 keeps the full range `(0, 2)`. -/
theorem crop_roi_frame_witness :
    crop_roi exA2 exM2 (.one 0) = .ok (⟨[1, 2], [1, 2]⟩, [(0, 1), (0, 2)]) ∧
    (∀ a, a < exA2.ndim → a ∉ resolveAxes exA2.ndim (.one 0) →
      [(0, 1), (0, 2)].getD a (0, 0) = (0, exA2.shape.getD a 0)) :=
  ⟨by rfl,
    crop_roi_frame exA2 exM2 (.one 0) ⟨[1, 2], [1, 2]⟩ [(0, 1), (0, 2)] (by rfl)⟩

/-- C6: `crop_roi` reports a shape mismatch exactly when the mask's shape
differs from the array's shape. -/
theorem crop_roi_shape_guard {α : Type} [Inhabited α] (A : NDArray α) (M : NDArray Bool)
    (axes : AxisSpec) :
    crop_roi A M axes = .error .shapeMismatch ↔ A.shape ≠ M.shape := by
  constructor
  · intro h
    by_contra hcon
    rw [crop_roi, if_neg (not_not_intro hcon)] at h
    cases hloop : roiLoop (argwhere M) (_full_array_slices A) (resolveAxes A.ndim axes) with
    | ok out =>
      rw [hloop] at h
      exact absurd h (by simp)
    | error e =>
      rw [hloop] at h
      have he : e = CropError.shapeMismatch := Except.error.inj h
      have he2 : e = CropError.emptyRegion := roiLoop_error_emptyRegion hloop
      rw [he] at he2
      exact CropError.noConfusion he2
  · intro hne
    rw [crop_roi, if_pos hne]

/-- Witness instantiating `crop_roi_shape_guard` on a 2 × 2 array and a
2 × 1 mask. -/
theorem crop_roi_shape_guard_witness :
    crop_roi exA2 exM3 .all = .error .shapeMismatch :=
  (crop_roi_shape_guard exA2 exM3 .all).mpr (by decide)

/-- C7: an all-false mask makes `crop_roi` fail with the empty-region
error as soon as at least one axis is selected. -/
theorem crop_roi_empty_mask {α : Type} [Inhabited α] (A : NDArray α) (M : NDArray Bool)
    (axes : AxisSpec) (hsh : A.shape = M.shape)
    (hfalse : ∀ b ∈ M.data, b = false)
    (hsel : resolveAxes A.ndim axes ≠ []) :
    crop_roi A M axes = .error .emptyRegion := by
  obtain ⟨d, rest, hdims⟩ := List.exists_cons_of_ne_nil hsel
  rw [crop_roi, if_neg (not_not_intro hsh), hdims, argwhere_nil hfalse,
    roiLoop_cons_none (by simp [axisCoords])]

/-- Witness instantiating `crop_roi_empty_mask` on the 4-element example
with the all-false mask and all axes selected. -/
theorem crop_roi_empty_mask_witness :
    (exA1.shape = exM1f.shape ∧ (∀ b ∈ exM1f.data, b = false) ∧
      resolveAxes exA1.ndim .all ≠ []) ∧
    crop_roi exA1 exM1f .all = .error .emptyRegion :=
  ⟨⟨by decide, by decide, by decide⟩,
    crop_roi_empty_mask exA1 exM1f .all (by decide) (by decide) (by decide)⟩

/-- C8: a single integer axis argument is interpreted modulo the rank, so
`crop_roi` on axis `k` agrees with `crop_roi` on
`((k % ndim) + ndim) % ndim`; negative indices address axes from the
end. -/
theorem crop_roi_axis_mod {α : Type} [Inhabited α] (A : NDArray α) (M : NDArray Bool)
    (k : Int) (hnd : 1 ≤ A.ndim) (hsh : A.shape = M.shape)
    (hsome : ∃ b ∈ M.data, b = true) :
    crop_roi A M (.one k) =
      crop_roi A M (.one ((k % (A.ndim : Int) + (A.ndim : Int)) % (A.ndim : Int))) := by
  have h1 : ((k % (A.ndim : Int) + (A.ndim : Int)) % (A.ndim : Int)) % (A.ndim : Int)
      = k % (A.ndim : Int) := by
    rw [Int.add_emod, Int.emod_self, add_zero, Int.emod_emod_of_dvd _ dvd_rfl,
      Int.emod_emod_of_dvd _ dvd_rfl, Int.emod_emod_of_dvd _ dvd_rfl]
  have hres : resolveAxes A.ndim
      (.one ((k % (A.ndim : Int) + (A.ndim : Int)) % (A.ndim : Int)))
      = resolveAxes A.ndim (.one k) := by
    show [(((k % (A.ndim : Int) + (A.ndim : Int)) % (A.ndim : Int)) % (A.ndim : Int)).toNat]
      = [(k % (A.ndim : Int)).toNat]
    rw [h1]
  rw [crop_roi, crop_roi, hres]

/-- Witness instantiating `crop_roi_axis_mod` on the 2 × 2 example with
the negative axis index -1. -/
theorem crop_roi_axis_mod_witness :
    (1 ≤ exA2.ndim ∧ exA2.shape = exM2.shape ∧ (∃ b ∈ exM2.data, b = true)) ∧
    crop_roi exA2 exM2 (.one (-1)) =
      crop_roi exA2 exM2
        (.one (((-1) % (exA2.ndim : Int) + (exA2.ndim : Int)) % (exA2.ndim : Int))) :=
  ⟨⟨by decide, by decide, by decide⟩,
    crop_roi_axis_mod exA2 exM2 (-1) (by decide) (by decide) (by decide)⟩

/-- C10: an empty axis collection selects no axis, so `crop_roi` raises
nothing — even on a mask with no true element — and returns the whole
well-formed array with full ranges on every axis. -/
theorem crop_roi_empty_axes {α : Type} [Inhabited α] (A : NDArray α) (M : NDArray Bool)
    (hwf : A.wf) (hsh : A.shape = M.shape) :
    crop_roi A M (.many []) = .ok (A, _full_array_slices A) := by
  rw [crop_roi, if_neg (not_not_intro hsh)]
  show Except.ok (applySlices A (_full_array_slices A), _full_array_slices A) = _
  rw [applySlices_full A hwf]

/-- Witness instantiating `crop_roi_empty_axes` on the 4-element example
with the all-false mask. -/
theorem crop_roi_empty_axes_witness :
    (exA1.wf ∧ exA1.shape = exM1f.shape) ∧
    crop_roi exA1 exM1f (.many []) = .ok (exA1, _full_array_slices exA1) :=
  ⟨⟨by rfl, by decide⟩, crop_roi_empty_axes exA1 exM1f (by rfl) (by decide)⟩

end Croppy
